import Mathlib

/-!
Verification of the path-indexed watcher store (`src/object.ts`,
`src/watcherStore.ts` / `src/useWatcherMap.tsx`).

The JavaScript value universe is embedded as `JVal`: primitives plus
container nodes.  Every container node carries a numeric identity so that
reference equality (`===`) of containers is expressible; cloning helpers
(`copyObj`) allocate fresh identities from an explicit counter that is
threaded through every function that clones.  Primitives compare by value,
exactly as `===` does in JavaScript.

All functions are direct translations of the source:
* `setDeepPathClone`, `getDeepPath`, `deleteDeepPathClone`, `copyObj`
  from `src/object.ts`;
* `addSubscriber`, `removeSubscriber`, `notifySubscribers`, `setState`,
  `setPath`, `clearPath`, `batch` from the store factory
  (`watcherStore`, `src/unnamed/part_009`; the hook variant in
  `src/src/useWatcherMap.tsx` has the identical notification and batch
  code).

Subscriber callbacks are opaque in the source, so a subscriber is modelled
by its identity (a `Nat`) and an optional watched path; an invocation of a
callback is recorded as an `Event` `(subscriber id, delivered value)` in
the order the source performs the calls.  The `onMount` callback is
modelled by a boolean-valued oracle `mountReturns` telling whether its
k-th invocation returns a cleanup function, together with invocation
counters, which is all the lifecycle claims observe.
-/

namespace UseWatcherMap

/-- JavaScript values: primitives plus container nodes.  A node records
whether it is an array (`Array.isArray`), its reference identity, and its
ordered own-property list.  Array elements are represented as properties
keyed by their index strings, matching how the source addresses them
(`obj[first]` with `first` a path segment string). -/
inductive JVal where
  | undefined : JVal
  | null : JVal
  | bool (b : Bool) : JVal
  | num (n : Int) : JVal
  | str (s : String) : JVal
  | node (isArr : Bool) (id : Nat) (fields : List (String × JVal)) : JVal

/-- Property lookup in an ordered own-property list (`fs[k]`);
`undefined` when the key is absent. -/
def getField : List (String × JVal) → String → JVal
  | [], _ => .undefined
  | (k', v) :: rest, k => if k' = k then v else getField rest k

/-- Property assignment `fs[k] = v`: overwrites in place (JS keeps the
original insertion position) or appends a new key. -/
def setField : List (String × JVal) → String → JVal → List (String × JVal)
  | [], k, v => [(k, v)]
  | (k', v') :: rest, k, v =>
    if k' = k then (k, v) :: rest else (k', v') :: setField rest k v

/-- Property removal `delete fs[k]`. -/
def removeField : List (String × JVal) → String → List (String × JVal)
  | [], _ => []
  | (k', v') :: rest, k =>
    if k' = k then rest else (k', v') :: removeField rest k

/-- Key-presence test on a property list. -/
def hasField : List (String × JVal) → String → Bool
  | [], _ => false
  | (k', _) :: rest, k => k' = k || hasField rest k

/-- `obj[k]` on an arbitrary value: property lookup on nodes, `undefined`
otherwise (the embedded flows never read properties of strings, the one
primitive with own indices in JS). -/
def fieldGet : JVal → String → JVal
  | .node _ _ fs, k => getField fs k
  | _, _ => .undefined

/-- `k in obj`: key presence on nodes.  The source only evaluates `in`
on container nodes (it guards with `typeof` before recursing). -/
def fieldMem : JVal → String → Bool
  | .node _ _ fs, k => hasField fs k
  | _, _ => false

/-- `Object.keys(obj)` in property order. -/
def objKeys : JVal → List String
  | .node _ _ fs => fs.map Prod.fst
  | _ => []

/-- `typeof x === 'object'` (true for nodes and for `null`). -/
def isObjectType : JVal → Bool
  | .node _ _ _ => true
  | .null => true
  | _ => false

/-- `x === null`. -/
def isNull : JVal → Bool
  | .null => true
  | _ => false

/-- `x === undefined`. -/
def isUndefined : JVal → Bool
  | .undefined => true
  | _ => false

/-- `x === undefined || x === null`. -/
def isNullOrUndefined : JVal → Bool
  | .undefined => true
  | .null => true
  | _ => false

/-- Container test. -/
def isNode : JVal → Bool
  | .node _ _ _ => true
  | _ => false

/-- Reference identity of a container node, if any. -/
def idAt : JVal → Option Nat
  | .node _ i _ => some i
  | _ => none

/-- JavaScript `===`: value equality on primitives, identity on nodes. -/
def refEq : JVal → JVal → Bool
  | .undefined, .undefined => true
  | .null, .null => true
  | .bool a, .bool b => a = b
  | .num a, .num b => a = b
  | .str a, .str b => a = b
  | .node _ i _, .node _ j _ => i = j
  | _, _ => false

/-- Property assignment on a value (`result[k] = v`); the source only
assigns into freshly cloned containers, so the non-node case is inert. -/
def withField : JVal → String → JVal → JVal
  | .node a i fs, k, v => .node a i (setField fs k v)
  | o, _, _ => o

/-- Property deletion on a value (`delete result[k]`). -/
def delField : JVal → String → JVal
  | .node a i fs, k => .node a i (removeField fs k)
  | o, _ => o

/-- `copyObj` from `src/object.ts`: `Array.isArray(obj) ? [...obj] : {...obj}`.
A shallow copy: fresh identity, same shape, same property list (child
references shared).  Spreading `null`, `undefined` or a non-container
primitive yields a fresh empty plain object, as in JS.  (The embedded
flows never spread a string, the one primitive whose spread is non-empty.) -/
def copyObj : JVal → Nat → JVal × Nat
  | .node isArr _ fs, c => (.node isArr c fs, c + 1)
  | _, c => (.node false c [], c + 1)

/-- `String.prototype.startsWith` on the character lists of the strings. -/
def strStartsWith (s pre : String) : Bool :=
  pre.data.isPrefixOf s.data

/-- `split('.')` on a character list: always at least one (possibly empty)
segment, exactly like `"".split('.') = [""]` in JS. -/
def splitChars : List Char → List (List Char)
  | [] => [[]]
  | ch :: rest =>
    let r := splitChars rest
    if ch = '.' then [] :: r
    else
      match r with
      | [] => [[ch]]
      | seg :: segs => (ch :: seg) :: segs

/-- `path.split('.')`. -/
def splitPath (p : String) : List String :=
  (splitChars p.data).map (fun cs => ⟨cs⟩)

/-- `setDeepPathClone` from `src/object.ts`.  Clones the current node,
then either assigns the final segment or recurses, synthesizing an empty
container when the existing child is missing or not object-typed.  The
counter is threaded through every allocation (`{}` literals and
`copyObj`). -/
def setDeepPathClone : JVal → List String → JVal → Nat → JVal × Nat
  | obj, [], _, c => (obj, c)
  | obj, [first], value, c =>
    let rc := copyObj obj c
    (withField rc.1 first value, rc.2)
  | obj, first :: second :: rest, value, c =>
    let rc := copyObj obj c
    let ec :=
      if isUndefined (fieldGet obj first) then (JVal.node false rc.2 [], rc.2 + 1)
      else (fieldGet obj first, rc.2)
    let ac :=
      if isObjectType ec.1 then copyObj ec.1 ec.2
      else (JVal.node false ec.2 [], ec.2 + 1)
    let sc := setDeepPathClone ac.1 (second :: rest) value ac.2
    (withField rc.1 first sc.1, sc.2)

/-- `getDeepPath` from `src/object.ts`. -/
def getDeepPath : JVal → List String → JVal
  | _, [] => .undefined
  | obj, first :: rest =>
    if isNullOrUndefined obj then .undefined
    else
      match rest with
      | [] => fieldGet obj first
      | _ => getDeepPath (fieldGet obj first) rest

/-- `deleteDeepPathClone` from `src/object.ts`. -/
def deleteDeepPathClone : JVal → List String → Bool → Nat → JVal × Nat
  | obj, [], _, c => (obj, c)
  | obj, [first], _, c =>
    if !fieldMem obj first then (obj, c)
    else
      let rc := copyObj obj c
      (delField rc.1 first, rc.2)
  | obj, first :: second :: rest, removeEmptyObjects, c =>
    if !fieldMem obj first then (obj, c)
    else
      let nestedValue := fieldGet obj first
      if !isObjectType nestedValue || isNull nestedValue then (obj, c)
      else
        let dc := deleteDeepPathClone nestedValue (second :: rest) removeEmptyObjects c
        if refEq dc.1 nestedValue then (obj, dc.2)
        else
          let rc := copyObj obj dc.2
          if removeEmptyObjects && (objKeys dc.1).length = 0 then
            (delField rc.1 first, rc.2)
          else
            (withField rc.1 first dc.1, rc.2)

/-- Walk a value along a segment list by repeated property lookup; used to
address the node "at" a path prefix when stating structural sharing. -/
def resAt : JVal → List String → JVal
  | v, [] => v
  | v, k :: ks => resAt (fieldGet v k) ks

mutual

/-- All container identities occurring in a value. -/
def allIds : JVal → List Nat
  | .node _ i fs => i :: allIdsFields fs
  | _ => []

/-- All container identities occurring in a property list. -/
def allIdsFields : List (String × JVal) → List Nat
  | [] => []
  | (_, v) :: rest => allIds v ++ allIdsFields rest

end

/-- A dotted path exists in a value: every segment is a present key of the
value reached so far (`k in obj` at each step). -/
def hasPath : JVal → List String → Bool
  | _, [] => true
  | obj, [first] => fieldMem obj first
  | obj, first :: second :: rest =>
    fieldMem obj first && hasPath (fieldGet obj first) (second :: rest)

/-! ## The store (`watcherStore`, `src/unnamed/part_009`)

Subscriber callbacks are opaque; each is modelled by a numeric identity.
Calling a callback is recorded as an `Event`.  The `onMount` callback is
modelled by the oracle `mountReturns : Nat → Bool` (does its k-th
invocation return a cleanup function?) plus invocation counters
`mountCalls` / `unmountCalls`; `onUnmountSet` mirrors
`typeof onUnmountFn === 'function'`. -/

structure Subscriber where
  path : Option String
  id : Nat

/-- One recorded callback invocation: subscriber identity and the value
passed to it. -/
abbrev Event := Nat × JVal

structure Store where
  state : JVal
  subscribers : List Subscriber
  batchedUpdates : Option (List (JVal × List String))
  onMountInstalled : Bool
  mountReturns : Nat → Bool
  onUnmountSet : Bool
  mountCalls : Nat
  unmountCalls : Nat
  freshId : Nat

/-- `addSubscriber` (`part_009` lines 69-80): on an empty registry first
invoke the installed mount callback, remembering its return value as the
unmount callback when it is a function; then push the subscriber unless
the same callback identity is already registered. -/
def addSubscriber (s : Store) (fn : Nat) (path : Option String) : Store :=
  let s1 :=
    if s.subscribers.length = 0 && s.onMountInstalled then
      { s with
        mountCalls := s.mountCalls + 1,
        onUnmountSet :=
          if s.mountReturns s.mountCalls then true else s.onUnmountSet }
    else s
  if s1.subscribers.any (fun sub => sub.id = fn) then s1
  else { s1 with subscribers := s1.subscribers ++ [⟨path, fn⟩] }

/-- `removeSubscriber` (`part_009` lines 82-88): filter the callback out,
then invoke the remembered unmount callback if the registry is now empty.
Note the source never resets `onUnmountFn`. -/
def removeSubscriber (s : Store) (fn : Nat) : Store :=
  let s1 := { s with subscribers := s.subscribers.filter (fun sub => sub.id ≠ fn) }
  if s1.subscribers.length = 0 && s1.onUnmountSet then
    { s1 with unmountCalls := s1.unmountCalls + 1 }
  else s1

/-- The inner `for (const notifyPath of paths)` loop of
`notifySubscribers` for one path-scoped subscriber: the first written path
that is an ancestor or descendant (by raw string prefixing) triggers one
call with the value at the subscriber path, and the `break` skips the
remaining written paths. -/
def pathLoop (subId : Nat) (subPath : String) (value : JVal) :
    List String → List Event
  | [] => []
  | notifyPath :: restPaths =>
    let childPathMatch := strStartsWith subPath notifyPath
    if childPathMatch then
      [(subId, getDeepPath value (splitPath subPath))]
    else
      let parentPathMatch := strStartsWith notifyPath subPath
      if parentPathMatch then
        [(subId, getDeepPath value (splitPath subPath))]
      else pathLoop subId subPath value restPaths

/-- The body of the outer subscriber loop of `notifySubscribers`.  The
source tests `if (subscriber.path)`, which is JS truthiness: a missing
path or the empty string both mean a whole-state subscriber. -/
def subscriberEvents (value : JVal) (paths : List String)
    (subscriber : Subscriber) : List Event :=
  match subscriber.path with
  | some p =>
    if p = "" then [(subscriber.id, value)]
    else pathLoop subscriber.id p value paths
  | none => [(subscriber.id, value)]

/-- `notifySubscribers` (`part_009` lines 96-141): while a batch is open
the update is appended to the pending list and nobody is called;
otherwise every subscriber is visited once in registration order. -/
def notifySubscribers (s : Store) (value : JVal) (paths : List String) :
    Store × List Event :=
  match s.batchedUpdates with
  | some pending =>
    ({ s with batchedUpdates := some (pending ++ [(value, paths)]) }, [])
  | none => (s, s.subscribers.flatMap (subscriberEvents value paths))

/-- `setState` (`part_009` lines 192-201): assign the new state and notify
with `Object.keys(value)` as the written paths. -/
def setState (s : Store) (value : JVal) : Store × List Event :=
  let s1 := { s with state := value }
  notifySubscribers s1 value (objKeys value)

/-- `setPath` (`part_009` lines 207-218): replace a null/undefined state
with `{}`, write the path copy-on-write, notify with the single path. -/
def setPath (s : Store) (path : String) (value : JVal) : Store × List Event :=
  let s0 :=
    if isNullOrUndefined s.state then
      { s with state := JVal.node false s.freshId [], freshId := s.freshId + 1 }
    else s
  let sc := setDeepPathClone s0.state (splitPath path) value s0.freshId
  let s1 := { s0 with state := sc.1, freshId := sc.2 }
  notifySubscribers s1 s1.state [path]

/-- `clearPath` (`part_009` lines 220-229). -/
def clearPath (s : Store) (path : String) (removeEmptyObjects : Bool) :
    Store × List Event :=
  if isNullOrUndefined s.state then (s, [])
  else
    let dc := deleteDeepPathClone s.state (splitPath path) removeEmptyObjects s.freshId
    let s1 := { s with state := dc.1, freshId := dc.2 }
    notifySubscribers s1 s1.state [path]

/-- A mutation issued by the function passed to `batch`; `throwOp` models
the function raising an exception at that point. -/
inductive Op where
  | setPathOp (path : String) (value : JVal) : Op
  | setStateOp (value : JVal) : Op
  | clearPathOp (path : String) (removeEmptyObjects : Bool) : Op
  | throwOp (msg : String) : Op

/-- Run one operation; `throwOp` propagates its message. -/
def runOp (s : Store) : Op → Store × List Event × Option String
  | .setPathOp p v => ((setPath s p v).1, (setPath s p v).2, none)
  | .setStateOp v => ((setState s v).1, (setState s v).2, none)
  | .clearPathOp p r => ((clearPath s p r).1, (clearPath s p r).2, none)
  | .throwOp m => (s, [], some m)

/-- Run the body of a batch synchronously, stopping at the first raised
exception, which propagates. -/
def runOps (s : Store) : List Op → Store × List Event × Option String
  | [] => (s, [], none)
  | op :: rest =>
    let r1 := runOp s op
    match r1.2.2 with
    | some m => (r1.1, r1.2.1, some m)
    | none =>
      let r2 := runOps r1.1 rest
      (r2.1, r1.2.1 ++ r2.2.1, r2.2.2)

/-- `u.paths.every(p => update.paths.includes(p))`. -/
def pathsSubset (u upd : List String) : Bool :=
  u.all (fun p => upd.contains p)

/-- The collapse loop of `batch`: iterate the recorded entries from most
recent to oldest, pushing each entry unless some already-kept entry has a
path set contained in it. -/
def collapseGo : List (JVal × List String) → List (JVal × List String) →
    List (JVal × List String)
  | [], updates => updates
  | update :: rest, updates =>
    if updates.any (fun u => pathsSubset u.2 update.2) then collapseGo rest updates
    else collapseGo rest (updates ++ [update])

/-- The deduplication performed by `batch` after the function returns
(`part_009` lines 177-183). -/
def collapseUpdates (entries : List (JVal × List String)) :
    List (JVal × List String) :=
  collapseGo entries.reverse []

/-- `updates.forEach(({value, paths}) => notifySubscribers(value, paths))`. -/
def notifyAll (s : Store) : List (JVal × List String) → Store × List Event
  | [] => (s, [])
  | (value, paths) :: rest =>
    let r1 := notifySubscribers s value paths
    let r2 := notifyAll r1.1 rest
    (r2.1, r1.2 ++ r2.2)

/-- `batch` (`part_009` lines 170-186): refuse nesting, open the pending
list, run the function (an exception propagates and leaves the pending
list open), then collapse and flush. -/
def batch (s : Store) (fn : List Op) : Store × List Event × Option String :=
  match s.batchedUpdates with
  | some _ => (s, [], some "Cannot batch updates inside a batch")
  | none =>
    let s1 := { s with batchedUpdates := some [] }
    let r := runOps s1 fn
    match r.2.2 with
    | some m => (r.1, r.2.1, some m)
    | none =>
      let pending := r.1.batchedUpdates.getD []
      let updates := collapseUpdates pending
      let s3 := { r.1 with batchedUpdates := none }
      let rn := notifyAll s3 updates
      (rn.1, r.2.1 ++ rn.2, none)

/-! ## Basic lemmas about property lists -/

theorem getField_setField_self (fs : List (String × JVal)) (k : String) (v : JVal) :
    getField (setField fs k v) k = v := by
  induction fs with
  | nil => simp [setField, getField]
  | cons kv rest ih =>
    obtain ⟨k', v'⟩ := kv
    by_cases h : k' = k <;> simp [setField, getField, h, ih]

theorem getField_setField_ne (fs : List (String × JVal)) (k' k : String) (v : JVal)
    (h : k' ≠ k) : getField (setField fs k' v) k = getField fs k := by
  induction fs with
  | nil => simp [setField, getField, h]
  | cons kv rest ih =>
    obtain ⟨k0, v0⟩ := kv
    by_cases h0 : k0 = k'
    · subst h0
      simp [setField, getField, h]
    · simp [setField, getField, h0, ih]

theorem hasField_iff_mem_keys (fs : List (String × JVal)) (k : String) :
    hasField fs k = true ↔ k ∈ fs.map Prod.fst := by
  induction fs with
  | nil => simp [hasField]
  | cons kv rest ih =>
    obtain ⟨k0, v0⟩ := kv
    by_cases h : k0 = k
    · subst h
      simp [hasField]
    · have h2 : ¬k = k0 := fun hh => h hh.symm
      simp [hasField, h, h2, ih]

theorem mem_keys_setField_self (fs : List (String × JVal)) (k : String) (v : JVal) :
    k ∈ (setField fs k v).map Prod.fst := by
  induction fs with
  | nil => simp [setField]
  | cons kv rest ih =>
    obtain ⟨k0, v0⟩ := kv
    by_cases h : k0 = k <;> simp [setField, h, ih]

theorem mem_keys_setField_of_mem (fs : List (String × JVal)) (k k' : String) (v : JVal)
    (h : k ∈ fs.map Prod.fst) : k ∈ (setField fs k' v).map Prod.fst := by
  induction fs with
  | nil => simp at h
  | cons kv rest ih =>
    obtain ⟨k0, v0⟩ := kv
    by_cases h0 : k0 = k'
    · subst h0
      simp [setField] at h ⊢
      rcases h with h | h
      · subst h
        exact Or.inl rfl
      · exact Or.inr h
    · simp [setField, h0] at h ⊢
      rcases h with h | h
      · exact Or.inl h
      · exact Or.inr (by simpa using ih (by simpa using h))

theorem refEq_refl (v : JVal) : refEq v v = true := by
  cases v <;> simp [refEq]

/-! ## C7: empty-path write and delete are identity, no clone -/

/-- **C7.** For every value `obj`, every written value `v` and every
allocation counter `c`, `setDeepPathClone obj [] v = obj` and
`deleteDeepPathClone obj [] = obj`: the very same reference is returned
and the counter is untouched, so no clone is made. -/
theorem empty_path_set_delete_noop (obj v : JVal) (rm : Bool) (c : Nat) :
    setDeepPathClone obj [] v c = (obj, c) ∧
    deleteDeepPathClone obj [] rm c = (obj, c) := by
  constructor <;> rfl

/-! ## C8: deleting a missing path returns the original reference -/

/-- **C8.** Deleting a path that does not exist (a missing segment anywhere
along the path) returns the original root reference unchanged; moreover,
whenever the recursive delete of the nested segment returns the very same
reference as its input, the enclosing call also returns its own original
reference, with no spurious clone (counter untouched in the first part
would require tracking; reference equality of the result is what the
claim states). -/
theorem delete_missing_path_noop :
    (∀ (p : List String) (obj : JVal) (rm : Bool) (c : Nat),
      hasPath obj p = false → (deleteDeepPathClone obj p rm c).1 = obj)
    ∧ (∀ (obj : JVal) (first : String) (second : String) (rest : List String)
        (rm : Bool) (c : Nat),
      fieldMem obj first = true →
      (deleteDeepPathClone (fieldGet obj first) (second :: rest) rm c).1 =
        fieldGet obj first →
      (deleteDeepPathClone obj (first :: second :: rest) rm c).1 = obj) := by
  constructor
  · intro p
    induction p with
    | nil => intro obj rm c h; simp [hasPath] at h
    | cons first rest ih =>
      intro obj rm c h
      cases rest with
      | nil =>
        simp only [hasPath] at h
        simp [deleteDeepPathClone, h]
      | cons second rest2 =>
        simp only [hasPath, Bool.and_eq_false_iff] at h
        rcases h with h | h
        · simp [deleteDeepPathClone, h]
        · by_cases hmem : fieldMem obj first = true
          · have hnest := ih (fieldGet obj first) rm c h
            simp only [deleteDeepPathClone, hmem, Bool.not_true, Bool.false_eq_true,
              if_false]
            by_cases hobj : (!isObjectType (fieldGet obj first) ||
                isNull (fieldGet obj first)) = true
            · simp [hobj]
            · simp only [hobj, if_false]
              have : refEq (deleteDeepPathClone (fieldGet obj first)
                  (second :: rest2) rm c).1 (fieldGet obj first) = true := by
                rw [hnest]; exact refEq_refl _
              simp [this]
          · simp [deleteDeepPathClone, hmem]
  · intro obj first second rest rm c hmem hsame
    simp only [deleteDeepPathClone, hmem, Bool.not_true, Bool.false_eq_true, if_false]
    by_cases hobj : (!isObjectType (fieldGet obj first) ||
        isNull (fieldGet obj first)) = true
    · simp [hobj]
    · simp only [hobj, if_false]
      have : refEq (deleteDeepPathClone (fieldGet obj first)
          (second :: rest) rm c).1 (fieldGet obj first) = true := by
        rw [hsame]; exact refEq_refl _
      simp [this]

/-- Concrete instance of C8: deleting the missing path `a.c` of
`{a: {b: 1}}` returns exactly the original reference. -/
theorem delete_missing_path_noop_witness :
    hasPath (JVal.node false 0 [("a", JVal.node false 1 [("b", JVal.num 1)])])
      ["a", "c"] = false ∧
    (deleteDeepPathClone
      (JVal.node false 0 [("a", JVal.node false 1 [("b", JVal.num 1)])])
      ["a", "c"] false 2).1 =
      JVal.node false 0 [("a", JVal.node false 1 [("b", JVal.num 1)])] :=
  ⟨rfl, delete_missing_path_noop.1 ["a", "c"]
    (JVal.node false 0 [("a", JVal.node false 1 [("b", JVal.num 1)])]) false 2 rfl⟩

/-! ## Characterization of one notification round -/

/-- The relation the source's inner loop tests between a subscriber path
and one written path: raw-string prefixing in either direction. -/
def pathRelated (subPath w : String) : Bool :=
  strStartsWith subPath w || strStartsWith w subPath

/-- Declarative description of what one subscriber receives in one
notification round: whole-state subscribers (including the falsy empty
path) always get the snapshot; a path-scoped subscriber gets the value at
its path exactly once if any written path is related to it, else
nothing. -/
def notifiedOnce (value : JVal) (paths : List String)
    (subscriber : Subscriber) : List Event :=
  match subscriber.path with
  | some p =>
    if p = "" then [(subscriber.id, value)]
    else if paths.any (pathRelated p) then
      [(subscriber.id, getDeepPath value (splitPath p))]
    else []
  | none => [(subscriber.id, value)]

theorem pathLoop_eq (subId : Nat) (subPath : String) (value : JVal)
    (paths : List String) :
    pathLoop subId subPath value paths =
      if paths.any (pathRelated subPath) then
        [(subId, getDeepPath value (splitPath subPath))]
      else [] := by
  induction paths with
  | nil => simp [pathLoop]
  | cons w rest ih =>
    by_cases h1 : strStartsWith subPath w = true
    · simp [pathLoop, h1, pathRelated]
    · by_cases h2 : strStartsWith w subPath = true
      · simp [pathLoop, h1, h2, pathRelated]
      · simp [pathLoop, h1, h2, pathRelated, ih]

theorem subscriberEvents_eq (value : JVal) (paths : List String)
    (subscriber : Subscriber) :
    subscriberEvents value paths subscriber =
      notifiedOnce value paths subscriber := by
  obtain ⟨p, i⟩ := subscriber
  cases p with
  | none => rfl
  | some p =>
    by_cases h : p = ""
    · simp [subscriberEvents, notifiedOnce, h]
    · simp [subscriberEvents, notifiedOnce, h, pathLoop_eq]

/-- Every event a subscriber loop body emits carries that subscriber's
identity, and there is at most one of them. -/
theorem subscriberEvents_shape (value : JVal) (paths : List String)
    (subscriber : Subscriber) :
    (subscriberEvents value paths subscriber).length ≤ 1 ∧
    ∀ e ∈ subscriberEvents value paths subscriber, e.1 = subscriber.id := by
  rw [subscriberEvents_eq]
  obtain ⟨p, i⟩ := subscriber
  cases p with
  | none => simp [notifiedOnce]
  | some p =>
    by_cases h : p = ""
    · simp [notifiedOnce, h]
    · by_cases h2 : paths.any (pathRelated p) = true
      · simp [notifiedOnce, h, h2]
      · simp [notifiedOnce, h, h2]

/-- A plain store with no lifecycle hooks installed, used to run concrete
scenarios. -/
def mkStore (st : JVal) (subs : List Subscriber) (c : Nat) : Store :=
  { state := st, subscribers := subs, batchedUpdates := none,
    onMountInstalled := false, mountReturns := fun _ => false,
    onUnmountSet := false, mountCalls := 0, unmountCalls := 0, freshId := c }

/-! ## C1: prefix matching is raw-string, not segment-aware -/

/-- The state `{todos: {"1": "a", "10": "b"}}` used to exhibit the
segment-boundary bug. -/
def todosState : JVal :=
  JVal.node false 0
    [("todos", JVal.node false 1 [("1", JVal.str "a"), ("10", JVal.str "b")])]

/-- **C1 (failing-input evaluation).** The notification engine's prefix
matching is raw string `startsWith`, not segment-aware: a write to
`todos.1` notifies a subscriber watching `todos.10` (the subscriber path
string starts with the written path string), and a write to `todos.10`
notifies a subscriber watching `todos.1` (the written path string starts
with the subscriber path string), although neither path is an ancestor or
descendant of the other as segment sequences.  The claim states neither
subscriber is ever notified; the code notifies both. -/
theorem raw_prefix_matching_crosses_segment_boundary :
    (setPath (mkStore todosState [⟨some "todos.10", 7⟩] 2)
      "todos.1" (JVal.str "x")).2 = [(7, JVal.str "b")] ∧
    (setPath (mkStore todosState [⟨some "todos.1", 5⟩] 2)
      "todos.10" (JVal.str "y")).2 = [(5, JVal.str "a")] := by
  constructor <;> rfl

/-! ## C5: batch coalescing of repeated writes to one path -/

/-- **C5.** Starting from any state and any allocation counter, a batch
that runs `setPath("filter","u1")`, then `"u2"`, then `"u3"` produces no
notification while the batched function is running (the recorded
notifications during the run are empty), and after it returns a
subscriber watching `"filter"` is invoked exactly once, with the final
value `"u3"`. -/
theorem batch_coalesces_repeated_path_writes (st : JVal) (subId : Nat) (c : Nat) :
    (runOps { mkStore st [⟨some "filter", subId⟩] c with batchedUpdates := some [] }
      [Op.setPathOp "filter" (JVal.str "u1"),
       Op.setPathOp "filter" (JVal.str "u2"),
       Op.setPathOp "filter" (JVal.str "u3")]).2.1 = [] ∧
    (batch (mkStore st [⟨some "filter", subId⟩] c)
      [Op.setPathOp "filter" (JVal.str "u1"),
       Op.setPathOp "filter" (JVal.str "u2"),
       Op.setPathOp "filter" (JVal.str "u3")]).2.1 = [(subId, JVal.str "u3")] ∧
    (batch (mkStore st [⟨some "filter", subId⟩] c)
      [Op.setPathOp "filter" (JVal.str "u1"),
       Op.setPathOp "filter" (JVal.str "u2"),
       Op.setPathOp "filter" (JVal.str "u3")]).2.2 = none := by
  cases st <;>
    simp [mkStore, batch, runOps, runOp, setPath, notifySubscribers,
      setDeepPathClone, copyObj, withField, isNullOrUndefined, collapseUpdates,
      collapseGo, pathsSubset, notifyAll, subscriberEvents, pathLoop,
      getDeepPath, fieldGet, getField_setField_self, isObjectType, isUndefined,
      show splitPath "filter" = ["filter"] from rfl,
      show strStartsWith "filter" "filter" = true from rfl,
      show ("filter" : String) ≠ "" by decide]

/-! ## C9: setState reports all top-level keys, value changes not checked -/

/-- **C9.** `setState(value)` notifies with the written-path set
`Object.keys(value)` regardless of whether each key's value differs from
the previous state: each subscriber receives exactly what the
`notifiedOnce` description assigns for those paths.  Consequently, for any
previous object state whose fields include `todos`, calling
`setState({...prev, filter: "completed"})` invokes both a `filter`
subscriber (with `"completed"`) and a `todos.1.text` subscriber — the
latter with the value read back unchanged from the previous state. -/
theorem setState_reports_top_level_keys :
    (∀ (s : Store) (v : JVal), s.batchedUpdates = none →
      (setState s v).2 = s.subscribers.flatMap (notifiedOnce v (objKeys v)))
    ∧ (∀ (b : Bool) (i c : Nat) (fs : List (String × JVal)),
        hasField fs "todos" = true →
        (setState (mkStore (JVal.node b i fs)
            [⟨some "filter", 0⟩, ⟨some "todos.1.text", 1⟩] c)
          (JVal.node false c (setField fs "filter" (JVal.str "completed")))).2 =
        [(0, JVal.str "completed"),
         (1, getDeepPath (JVal.node b i fs) (splitPath "todos.1.text"))]) := by
  have hrounds : ∀ (s : Store) (v : JVal), s.batchedUpdates = none →
      (setState s v).2 = s.subscribers.flatMap (notifiedOnce v (objKeys v)) := by
    intro s v h
    have hfun : subscriberEvents v (objKeys v) = notifiedOnce v (objKeys v) :=
      funext (subscriberEvents_eq v (objKeys v))
    simp [setState, notifySubscribers, h, hfun]
  refine ⟨hrounds, ?_⟩
  intro b i c fs hmem
  rw [hrounds _ _ rfl]
  have hkeys : objKeys (JVal.node false c (setField fs "filter" (JVal.str "completed"))) =
      (setField fs "filter" (JVal.str "completed")).map Prod.fst := rfl
  have hany0 : ((setField fs "filter" (JVal.str "completed")).map Prod.fst).any
      (pathRelated "filter") = true := by
    refine List.any_eq_true.mpr ⟨"filter", mem_keys_setField_self fs _ _, rfl⟩
  have hany1 : ((setField fs "filter" (JVal.str "completed")).map Prod.fst).any
      (pathRelated "todos.1.text") = true := by
    refine List.any_eq_true.mpr ⟨"todos", ?_, rfl⟩
    exact mem_keys_setField_of_mem fs "todos" "filter" _
      ((hasField_iff_mem_keys fs "todos").mp hmem)
  have hv0 : getDeepPath (JVal.node false c (setField fs "filter" (JVal.str "completed")))
      (splitPath "filter") = JVal.str "completed" := by
    have : splitPath "filter" = ["filter"] := rfl
    rw [this]
    simp [getDeepPath, isNullOrUndefined, fieldGet, getField_setField_self]
  have hv1 : getDeepPath (JVal.node false c (setField fs "filter" (JVal.str "completed")))
      (splitPath "todos.1.text") =
      getDeepPath (JVal.node b i fs) (splitPath "todos.1.text") := by
    have hsp : splitPath "todos.1.text" = ["todos", "1", "text"] := rfl
    rw [hsp]
    have hne : ("filter" : String) ≠ "todos" := by decide
    simp [getDeepPath, isNullOrUndefined, fieldGet, getField_setField_ne _ _ _ _ hne]
  simp [mkStore, notifiedOnce, hkeys, hany0, hany1, hv0, hv1,
    show ("filter" : String) ≠ "" by decide,
    show ("todos.1.text" : String) ≠ "" by decide]

/-! ## C2: what the batch collapse actually keeps, and in what order -/

/-- Declarative description of the entries that survive the collapse, in
production order: an entry survives iff no *surviving later* entry has a
path set contained (as a set of strings) in its path set.  In particular,
among entries with the same exact path set only the last survives, but an
entry is also dropped when a later surviving entry's paths form a strict
subset of its paths. -/
def survivorsSpec : List (JVal × List String) → List (JVal × List String)
  | [] => []
  | x :: rest =>
    let s := survivorsSpec rest
    if s.any (fun u => pathsSubset u.2 x.2) then s else x :: s

/-- The collapse loop with its accumulator made explicit: the entries the
loop appends beyond the already-kept `acc`. -/
def filtAcc : List (JVal × List String) → List (JVal × List String) →
    List (JVal × List String)
  | [], _ => []
  | x :: rest, acc =>
    if acc.any (fun u => pathsSubset u.2 x.2) then filtAcc rest acc
    else x :: filtAcc rest (acc ++ [x])

theorem collapseGo_eq_filtAcc (l acc : List (JVal × List String)) :
    collapseGo l acc = acc ++ filtAcc l acc := by
  induction l generalizing acc with
  | nil => simp [collapseGo, filtAcc]
  | cons x rest ih =>
    by_cases h : acc.any (fun u => pathsSubset u.2 x.2) = true
    · simp [collapseGo, filtAcc, h, ih]
    · simp only [collapseGo, filtAcc, h, Bool.false_eq_true, if_false]
      rw [ih]
      simp

theorem filtAcc_append (l1 l2 acc : List (JVal × List String)) :
    filtAcc (l1 ++ l2) acc = filtAcc l1 acc ++ filtAcc l2 (acc ++ filtAcc l1 acc) := by
  induction l1 generalizing acc with
  | nil => simp [filtAcc]
  | cons x rest ih =>
    by_cases h : acc.any (fun u => pathsSubset u.2 x.2) = true
    · simp [filtAcc, h, ih]
    · simp only [List.cons_append, filtAcc, h, Bool.false_eq_true, if_false,
        List.append_assoc, List.singleton_append]
      rw [show rest.append l2 = rest ++ l2 from rfl, ih]
      simp

theorem any_reverse_eq (l : List (JVal × List String))
    (p : (JVal × List String) → Bool) : l.reverse.any p = l.any p := by
  induction l with
  | nil => rfl
  | cons x rest ih => simp [List.any_append, ih, Bool.or_comm]

/-- **C2 (amended).** After the batched function returns, the surviving
pending entries are those with no surviving later entry whose path set is
contained in theirs (`survivorsSpec`); dropping is by path-set
containment, not path-set equality, and the notification engine is
invoked once per surviving entry in *reverse* production order (most
recent first). -/
theorem batch_collapse_subset_dedup_reverse_order
    (entries : List (JVal × List String)) :
    collapseUpdates entries = (survivorsSpec entries).reverse := by
  induction entries with
  | nil => rfl
  | cons e rest ih =>
    have h1 : collapseUpdates (e :: rest) =
        filtAcc (rest.reverse ++ [e]) [] := by
      simp [collapseUpdates, collapseGo_eq_filtAcc]
    rw [h1, filtAcc_append]
    have h2 : filtAcc rest.reverse [] = (survivorsSpec rest).reverse := by
      have := ih
      simpa [collapseUpdates, collapseGo_eq_filtAcc] using this
    rw [h2]
    simp only [List.nil_append]
    by_cases h : (survivorsSpec rest).any (fun u => pathsSubset u.2 e.2) = true
    · have hrev : (survivorsSpec rest).reverse.any (fun u => pathsSubset u.2 e.2) = true := by
        rw [any_reverse_eq]; exact h
      simp [filtAcc, hrev, survivorsSpec, h]
    · have hrev : (survivorsSpec rest).reverse.any (fun u => pathsSubset u.2 e.2) = false := by
        rw [any_reverse_eq]; exact Bool.eq_false_iff.mpr h
      simp [filtAcc, hrev, survivorsSpec, h]

/-- **C2 (counterexample).**  First scenario: a batch records a
`setState` entry with path set `["a","b"]` followed by a `setPath` entry
with path set `["a"]`.  The two path sets differ, so the claim keeps both
entries and a whole-state subscriber would be invoked twice; the code
drops the earlier entry (its path set contains the later one's) and
invokes the subscriber exactly once.  Second scenario: two writes to the
unrelated paths `a` and `b`; both survive, but the whole-state subscriber
receives the entries most recent first — the reverse of the production
order the claim states (the first delivered snapshot is the final state
`{a:1, b:2}`, the second is the intermediate state `{a:1}`). -/
theorem batch_collapse_claim_counterexample :
    (batch (mkStore (JVal.node false 100 []) [⟨none, 0⟩] 101)
      [Op.setStateOp (JVal.node false 50 [("a", JVal.num 1), ("b", JVal.num 2)]),
       Op.setPathOp "a" (JVal.num 3)]).2.1 =
      [(0, JVal.node false 101 [("a", JVal.num 3), ("b", JVal.num 2)])] ∧
    (batch (mkStore (JVal.node false 100 []) [⟨none, 0⟩] 101)
      [Op.setPathOp "a" (JVal.num 1), Op.setPathOp "b" (JVal.num 2)]).2.1 =
      [(0, JVal.node false 102 [("a", JVal.num 1), ("b", JVal.num 2)]),
       (0, JVal.node false 101 [("a", JVal.num 1)])] := by
  constructor <;> rfl

/-! ## C3: at most one notification per subscriber per round, not per batch -/

theorem mem_round_events_id (subs : List Subscriber) (v : JVal) (ps : List String)
    (e : Event) (h : e ∈ subs.flatMap (subscriberEvents v ps)) :
    ∃ sub ∈ subs, e.1 = sub.id := by
  rcases List.mem_flatMap.mp h with ⟨sub, hsub, he⟩
  exact ⟨sub, hsub, (subscriberEvents_shape v ps sub).2 e he⟩

theorem round_filter_length_le_one (subs : List Subscriber) (v : JVal)
    (ps : List String) (i : Nat) (hnd : (subs.map Subscriber.id).Nodup) :
    ((subs.flatMap (subscriberEvents v ps)).filter (fun e => e.1 = i)).length ≤ 1 := by
  induction subs with
  | nil => simp
  | cons sub rest ih =>
    simp only [List.map_cons, List.nodup_cons] at hnd
    obtain ⟨hni, hnd2⟩ := hnd
    rw [List.flatMap_cons, List.filter_append, List.length_append]
    by_cases hid : sub.id = i
    · have hrest : ((rest.flatMap (subscriberEvents v ps)).filter
          (fun e => e.1 = i)).length = 0 := by
        rw [List.length_eq_zero, List.filter_eq_nil_iff]
        intro e he
        rcases mem_round_events_id rest v ps e he with ⟨sub2, hsub2, heq⟩
        have : sub.id ≠ sub2.id := by
          intro hc
          exact hni (hc ▸ List.mem_map_of_mem Subscriber.id hsub2)
        simp only [decide_eq_true_eq]
        rw [heq]
        intro hc
        exact this (by rw [hid, ← hc])
      have hsub1 : ((subscriberEvents v ps sub).filter (fun e => e.1 = i)).length ≤ 1 :=
        le_trans (List.length_filter_le _ _) (subscriberEvents_shape v ps sub).1
      omega
    · have hsub0 : ((subscriberEvents v ps sub).filter (fun e => e.1 = i)).length = 0 := by
        rw [List.length_eq_zero, List.filter_eq_nil_iff]
        intro e he
        have := (subscriberEvents_shape v ps sub).2 e he
        simp only [decide_eq_true_eq]
        rw [this]
        exact hid
      have := ih hnd2
      omega

/-- **C3 (amended).** Every subscriber receives at most one notification
per logical mutation (`setPath`, `setState`, `clearPath` issued outside a
batch) even when several written paths match it; inside a batch, it
receives at most one notification per *surviving pending entry*, hence at
most as many notifications per transaction as there are surviving
entries — not at most one per transaction. -/
theorem at_most_one_notification_per_round :
    (∀ (s : Store) (p : String) (v : JVal) (i : Nat), s.batchedUpdates = none →
      (s.subscribers.map Subscriber.id).Nodup →
      (((setPath s p v).2).filter (fun e => e.1 = i)).length ≤ 1)
    ∧ (∀ (s : Store) (v : JVal) (i : Nat), s.batchedUpdates = none →
      (s.subscribers.map Subscriber.id).Nodup →
      (((setState s v).2).filter (fun e => e.1 = i)).length ≤ 1)
    ∧ (∀ (s : Store) (p : String) (rm : Bool) (i : Nat), s.batchedUpdates = none →
      (s.subscribers.map Subscriber.id).Nodup →
      (((clearPath s p rm).2).filter (fun e => e.1 = i)).length ≤ 1)
    ∧ (∀ (s : Store) (updates : List (JVal × List String)) (i : Nat),
      s.batchedUpdates = none →
      (s.subscribers.map Subscriber.id).Nodup →
      (((notifyAll s updates).2).filter (fun e => e.1 = i)).length ≤ updates.length) := by
  refine ⟨?_, ?_, ?_, ?_⟩
  · intro s p v i hb hnd
    simp only [setPath, notifySubscribers, hb]
    split
    · next heq =>
      exfalso
      by_cases hsn : isNullOrUndefined s.state = true <;> simp [hsn, hb] at heq
    · next heq =>
      by_cases hsn : isNullOrUndefined s.state = true <;>
        simpa [hsn] using round_filter_length_le_one s.subscribers _ _ i hnd
  · intro s v i hb hnd
    simp only [setState, notifySubscribers, hb]
    exact round_filter_length_le_one s.subscribers _ _ i hnd
  · intro s p rm i hb hnd
    by_cases hsn : isNullOrUndefined s.state = true
    · simp [clearPath, hsn]
    · simp only [clearPath, hsn, Bool.false_eq_true, if_false, notifySubscribers, hb]
      exact round_filter_length_le_one s.subscribers _ _ i hnd
  · intro s updates i hb hnd
    induction updates with
    | nil => simp [notifyAll]
    | cons u rest ih =>
      obtain ⟨uv, ups⟩ := u
      simp only [notifyAll, notifySubscribers, hb, List.filter_append,
        List.length_append, List.length_cons]
      have h1 := round_filter_length_le_one s.subscribers uv ups i hnd
      have h2 := ih
      omega

/-- **C3 (counterexample).** In one transaction that writes the two
unrelated paths `x` and `y`, a whole-state subscriber is notified twice
— once per surviving pending entry — although the claim allows at most
one notification per transaction. -/
theorem per_transaction_notification_counterexample :
    ((batch (mkStore (JVal.node false 100 []) [⟨none, 3⟩] 101)
      [Op.setPathOp "x" (JVal.num 10), Op.setPathOp "y" (JVal.num 20)]).2.1.filter
        (fun e => e.1 = 3)).length = 2 := by
  rfl

/-- Concrete instance of C9: a previous state with a `todos` field and an
unchanged `todos` subtree still notifies the `todos.1.text` subscriber. -/
theorem setState_reports_top_level_keys_witness :
    hasField [("todos", JVal.num 1)] "todos" = true ∧
    (setState (mkStore (JVal.node false 0 [("todos", JVal.num 1)])
        [⟨some "filter", 0⟩, ⟨some "todos.1.text", 1⟩] 5)
      (JVal.node false 5 (setField [("todos", JVal.num 1)] "filter"
        (JVal.str "completed")))).2 =
    [(0, JVal.str "completed"),
     (1, getDeepPath (JVal.node false 0 [("todos", JVal.num 1)])
        (splitPath "todos.1.text"))] :=
  ⟨rfl, setState_reports_top_level_keys.2 false 0 5 [("todos", JVal.num 1)] rfl⟩

/-- Concrete instance of C3: one `setPath` outside a batch notifies the
single `filter` subscriber at most once. -/
theorem at_most_one_notification_per_round_witness :
    (mkStore todosState [⟨some "filter", 0⟩] 2).batchedUpdates = none ∧
    ((mkStore todosState [⟨some "filter", 0⟩] 2).subscribers.map Subscriber.id).Nodup ∧
    (((setPath (mkStore todosState [⟨some "filter", 0⟩] 2) "filter" (JVal.num 1)).2).filter
      (fun e => e.1 = 0)).length ≤ 1 :=
  ⟨rfl, by simp [mkStore],
    at_most_one_notification_per_round.1
      (mkStore todosState [⟨some "filter", 0⟩] 2) "filter" (JVal.num 1) 0 rfl
      (by simp [mkStore])⟩

/-! ## C4: mount fires once on 0 to 1; unmount fires on 1 to 0 but is kept -/

/-- **C4 (amended).** Registering a subscriber into an empty registry with
a mount callback installed invokes it exactly once, and registering into a
non-empty registry does not invoke it; when a removal empties the registry
while an unmount callback is remembered, that callback is invoked — but it
is *not* cleared: it stays remembered after the call, so it can fire again
on a later transition to an empty registry (the source never resets the
remembered unmount callback). -/
theorem mount_unmount_transitions :
    (∀ (s : Store) (fn : Nat) (p : Option String), s.subscribers = [] →
      s.onMountInstalled = true →
      (addSubscriber s fn p).mountCalls = s.mountCalls + 1 ∧
      (addSubscriber s fn p).subscribers = [⟨p, fn⟩])
    ∧ (∀ (s : Store) (fn : Nat) (p : Option String), s.subscribers ≠ [] →
      (addSubscriber s fn p).mountCalls = s.mountCalls)
    ∧ (∀ (s : Store) (fn : Nat), s.onUnmountSet = true →
      (s.subscribers.filter (fun sub => sub.id ≠ fn)).length = 0 →
      (removeSubscriber s fn).unmountCalls = s.unmountCalls + 1 ∧
      (removeSubscriber s fn).onUnmountSet = true) := by
  refine ⟨?_, ?_, ?_⟩
  · intro s fn p hempty hinst
    constructor <;> simp [addSubscriber, hempty, hinst]
  · intro s fn p hne
    have hlen : ¬s.subscribers.length = 0 := by
      simpa [List.length_eq_zero] using hne
    by_cases hany : s.subscribers.any (fun sub => sub.id = fn) = true <;>
      simp [addSubscriber, hlen, hany]
  · intro s fn hunm hlen
    simp only [ne_eq, decide_not] at hlen
    constructor <;> simp [removeSubscriber, hlen, hunm]

/-- Concrete instance of C4 (amended): a mount, an add on a non-empty
registry, and an emptying removal, each with its hypotheses discharged. -/
theorem mount_unmount_transitions_witness :
    (({ mkStore JVal.null [] 0 with onMountInstalled := true } : Store).subscribers = [] ∧
      (addSubscriber { mkStore JVal.null [] 0 with onMountInstalled := true } 4 none).mountCalls =
        ({ mkStore JVal.null [] 0 with onMountInstalled := true} : Store).mountCalls + 1) ∧
    ((mkStore JVal.null [⟨none, 4⟩] 0).subscribers ≠ [] ∧
      (addSubscriber (mkStore JVal.null [⟨none, 4⟩] 0) 9 none).mountCalls =
        (mkStore JVal.null [⟨none, 4⟩] 0).mountCalls) ∧
    ((removeSubscriber { mkStore JVal.null [⟨none, 4⟩] 0 with onUnmountSet := true } 4).unmountCalls =
        ({ mkStore JVal.null [⟨none, 4⟩] 0 with onUnmountSet := true } : Store).unmountCalls + 1 ∧
      (removeSubscriber { mkStore JVal.null [⟨none, 4⟩] 0 with onUnmountSet := true } 4).onUnmountSet = true) :=
  ⟨⟨rfl, (mount_unmount_transitions.1 _ 4 none rfl rfl).1⟩,
   ⟨by simp [mkStore], mount_unmount_transitions.2.1 _ 9 none (by simp [mkStore])⟩,
   mount_unmount_transitions.2.2 _ 4 rfl (by simp [mkStore])⟩

/-- **C4 (counterexample).** Two full mount/unmount cycles where the
mount callback returns a cleanup only the first time.  Under the claim,
the remembered unmount callback is cleared after its first invocation and
the second cycle remembers nothing, so it would run exactly once; the
code leaves it remembered and fires it again when the second cycle
empties the registry, so it runs twice. -/
theorem unmount_not_cleared_counterexample :
    (removeSubscriber (addSubscriber (removeSubscriber (addSubscriber
      { mkStore JVal.null [] 0 with
          onMountInstalled := true, mountReturns := fun k => k = 0 }
      0 none) 0) 1 none) 1).unmountCalls = 2 ∧
    ¬(removeSubscriber (addSubscriber (removeSubscriber (addSubscriber
      { mkStore JVal.null [] 0 with
          onMountInstalled := true, mountReturns := fun k => k = 0 }
      0 none) 0) 1 none) 1).unmountCalls = 1 := by
  constructor
  · rfl
  · intro h
    simp [mkStore, addSubscriber, removeSubscriber] at h

/-! ## C10: an exception inside batch leaves the store batching forever -/

/-- Whether an operation models the batched function throwing. -/
def opThrows : Op → Bool
  | .throwOp _ => true
  | _ => false

/-- While a batch is open, every mutation defers: it emits no events,
raises nothing, and keeps the pending list open. -/
theorem runOp_while_batching (s : Store) (pend : List (JVal × List String))
    (op : Op) (h : s.batchedUpdates = some pend) (hop : opThrows op = false) :
    (runOp s op).2.1 = [] ∧ (runOp s op).2.2 = none ∧
    ∃ pend2, (runOp s op).1.batchedUpdates = some pend2 := by
  cases op with
  | setPathOp p v =>
    by_cases hsn : isNullOrUndefined s.state = true <;>
      simp [runOp, setPath, notifySubscribers, hsn, h]
  | setStateOp v => simp [runOp, setState, notifySubscribers, h]
  | clearPathOp p rm =>
    by_cases hsn : isNullOrUndefined s.state = true <;>
      simp [runOp, clearPath, notifySubscribers, hsn, h]
  | throwOp m => simp [opThrows] at hop

/-- Running throw-free operations followed by a throw, inside an open
batch: no events, the exception propagates, the pending list stays open. -/
theorem runOps_throw_tail (ops : List Op) (s : Store) (msg : String)
    (pend : List (JVal × List String)) (h : s.batchedUpdates = some pend)
    (hops : ∀ op ∈ ops, opThrows op = false) :
    (runOps s (ops ++ [Op.throwOp msg])).2.1 = [] ∧
    (runOps s (ops ++ [Op.throwOp msg])).2.2 = some msg ∧
    ∃ pend2, (runOps s (ops ++ [Op.throwOp msg])).1.batchedUpdates = some pend2 := by
  induction ops generalizing s pend with
  | nil =>
    refine ⟨rfl, rfl, pend, ?_⟩
    simpa [runOps, runOp] using h
  | cons op rest ih =>
    obtain ⟨he, hn, pend2, hb⟩ :=
      runOp_while_batching s pend op h (hops op (List.mem_cons_self op rest))
    have ihr := ih (runOp s op).1 pend2 hb
      (fun o ho => hops o (List.mem_cons_of_mem op ho))
    simp only [List.cons_append, runOps, List.append_eq, hn, he, ihr.1, ihr.2.1,
      List.nil_append]
    exact ⟨trivial, trivial, ihr.2.2⟩

/-- **C10.** If the function passed to `batch` throws, the exception
propagates to the caller (`batch` reports it), no subscriber is ever
notified, and the store is left permanently in batching mode: the pending
list is still open afterwards, every subsequent mutation defers without
notifying anyone, and every subsequent `batch` call fails with the
nested-batch error. -/
theorem batch_throw_leaves_store_batching (s : Store) (ops : List Op)
    (msg : String) (hb : s.batchedUpdates = none)
    (hops : ∀ op ∈ ops, opThrows op = false) :
    (batch s (ops ++ [Op.throwOp msg])).2.2 = some msg ∧
    (batch s (ops ++ [Op.throwOp msg])).2.1 = [] ∧
    (∃ pend, (batch s (ops ++ [Op.throwOp msg])).1.batchedUpdates = some pend) ∧
    (∀ (p : String) (v : JVal),
      (setPath (batch s (ops ++ [Op.throwOp msg])).1 p v).2 = [] ∧
      ∃ pend2,
        (setPath (batch s (ops ++ [Op.throwOp msg])).1 p v).1.batchedUpdates =
          some pend2) ∧
    (∀ fn2 : List Op,
      (batch (batch s (ops ++ [Op.throwOp msg])).1 fn2).2.2 =
        some "Cannot batch updates inside a batch") := by
  obtain ⟨he, hn, pend, hpend⟩ :=
    runOps_throw_tail ops { s with batchedUpdates := some [] } msg [] rfl hops
  have hbatch : batch s (ops ++ [Op.throwOp msg]) =
      ((runOps { s with batchedUpdates := some [] } (ops ++ [Op.throwOp msg])).1,
        (runOps { s with batchedUpdates := some [] } (ops ++ [Op.throwOp msg])).2.1,
        some msg) := by
    simp only [batch, hb, hn]
  refine ⟨by rw [hbatch], by rw [hbatch]; exact he, ⟨pend, by rw [hbatch]; exact hpend⟩,
    ?_, ?_⟩
  · intro p v
    have h1 := runOp_while_batching
      (runOps { s with batchedUpdates := some [] } (ops ++ [Op.throwOp msg])).1 pend
      (Op.setPathOp p v) hpend rfl
    rw [hbatch]
    exact ⟨h1.1, h1.2.2⟩
  · intro fn2
    rw [hbatch]
    simp only [batch, hpend]

/-- Concrete instance of C10: one deferred write, then a throw. -/
theorem batch_throw_leaves_store_batching_witness :
    (mkStore (JVal.node false 0 []) [⟨none, 0⟩] 1).batchedUpdates = none ∧
    (∀ op ∈ [Op.setPathOp "a" (JVal.num 1)], opThrows op = false) ∧
    (batch (mkStore (JVal.node false 0 []) [⟨none, 0⟩] 1)
      ([Op.setPathOp "a" (JVal.num 1)] ++ [Op.throwOp "boom"])).2.2 = some "boom" :=
  ⟨rfl, by simp [opThrows],
    (batch_throw_leaves_store_batching (mkStore (JVal.node false 0 []) [⟨none, 0⟩] 1)
      [Op.setPathOp "a" (JVal.num 1)] "boom" rfl (by simp [opThrows])).1⟩

/-! ## C6: structural sharing of setDeepPathClone -/

theorem copyObj_snd (obj : JVal) (c : Nat) : (copyObj obj c).2 = c + 1 := by
  cases obj <;> rfl

/-- The argument value and counter `setDeepPathClone` recurses on for an
intermediate segment: the existing child (or a synthesized `{}`), copied
when object-typed, replaced by `{}` otherwise. -/
def argPair (obj : JVal) (first : String) (c : Nat) : JVal × Nat :=
  let rc := copyObj obj c
  let ec :=
    if isUndefined (fieldGet obj first) then (JVal.node false rc.2 [], rc.2 + 1)
    else (fieldGet obj first, rc.2)
  if isObjectType ec.1 then copyObj ec.1 ec.2
  else (JVal.node false ec.2 [], ec.2 + 1)

theorem setDeepPathClone_cons_cons (obj v : JVal) (first second : String)
    (rest : List String) (c : Nat) :
    setDeepPathClone obj (first :: second :: rest) v c =
      (withField (copyObj obj c).1 first
        (setDeepPathClone (argPair obj first c).1 (second :: rest) v
          (argPair obj first c).2).1,
       (setDeepPathClone (argPair obj first c).1 (second :: rest) v
          (argPair obj first c).2).2) :=
  rfl

theorem argPair_counter_ge (obj : JVal) (first : String) (c : Nat) :
    c + 1 ≤ (argPair obj first c).2 := by
  unfold argPair
  by_cases h1 : isUndefined (fieldGet obj first) = true <;>
    simp only [h1, Bool.false_eq_true, if_true, if_false] <;>
    split <;> simp [copyObj_snd]

theorem argPair_of_node (obj : JVal) (first : String) (c : Nat)
    (b : Bool) (i : Nat) (fs : List (String × JVal))
    (h : fieldGet obj first = JVal.node b i fs) :
    argPair obj first c = (JVal.node b (c + 1) fs, c + 2) := by
  cases obj <;> simp_all [argPair, copyObj, isUndefined, isObjectType, fieldGet]

theorem idAt_setDeepPathClone_cons (obj v : JVal) (k : String) (ks : List String)
    (c : Nat) : idAt (setDeepPathClone obj (k :: ks) v c).1 = some c := by
  cases ks <;> cases obj <;>
    simp [setDeepPathClone, copyObj, withField, idAt]

theorem fieldGet_withField_copy (obj v : JVal) (k : String) (c : Nat) :
    fieldGet (withField (copyObj obj c).1 k v) k = v := by
  cases obj <;> simp [copyObj, withField, fieldGet, getField_setField_self]

theorem fieldGet_withField_copy_ne (obj v : JVal) (k' k : String) (c : Nat)
    (h : k' ≠ k) (b : Bool) (i : Nat) (fs : List (String × JVal))
    (hobj : obj = JVal.node b i fs) :
    fieldGet (withField (copyObj obj c).1 k' v) k = getField fs k := by
  subst hobj
  simp [copyObj, withField, fieldGet, getField_setField_ne _ _ _ _ h]

theorem fieldGet_resAt_congr (fs : List (String × JVal)) (b1 b2 : Bool)
    (i1 i2 : Nat) (ks : List String) :
    (∀ k, fieldGet (resAt (JVal.node b1 i1 fs) ks) k =
      fieldGet (resAt (JVal.node b2 i2 fs) ks) k) ∧
    isNode (resAt (JVal.node b1 i1 fs) ks) = isNode (resAt (JVal.node b2 i2 fs) ks) := by
  cases ks with
  | nil => exact ⟨fun k => rfl, rfl⟩
  | cons k0 ks0 => exact ⟨fun k => rfl, rfl⟩

theorem fieldGet_of_not_node (o : JVal) (k : String) (h : isNode o = false) :
    fieldGet o k = JVal.undefined := by
  cases o <;> simp_all [isNode, fieldGet]

theorem isNode_resAt_false (ks : List String) (o : JVal) (h : isNode o = false) :
    isNode (resAt o ks) = false := by
  induction ks generalizing o with
  | nil => exact h
  | cons k0 ks0 ih =>
    simp only [resAt, fieldGet_of_not_node o k0 h]
    exact ih JVal.undefined rfl

theorem isNode_exists (o : JVal) (h : isNode o = true) :
    ∃ b i fs, o = JVal.node b i fs := by
  cases o <;> first
    | exact ⟨_, _, _, rfl⟩
    | simp_all [isNode]

/-- Freshness half of structural sharing: after a non-empty-path write,
the node at every proper prefix of the path carries an identity allocated
at or above the starting counter. -/
theorem set_fresh (P : List String) (obj v : JVal) (c : Nat) (hne : P ≠ []) :
    ∀ i, i < P.length → ∃ idv,
      idAt (resAt (setDeepPathClone obj P v c).1 (P.take i)) = some idv ∧
      c ≤ idv := by
  induction P generalizing obj c with
  | nil => exact absurd rfl hne
  | cons first R ihP =>
    cases R with
    | nil =>
      intro i hi
      have hi0 : i = 0 := by
        simp only [List.length_cons, List.length_nil] at hi
        omega
      subst hi0
      exact ⟨c, idAt_setDeepPathClone_cons obj v first [] c, le_refl c⟩
    | cons second rest =>
      intro i hi
      cases i with
      | zero =>
        exact ⟨c, idAt_setDeepPathClone_cons obj v first (second :: rest) c, le_refl c⟩
      | succ j =>
        have hj : j < (second :: rest).length := by
          simpa [List.length_cons] using Nat.lt_of_succ_lt_succ hi
        rw [setDeepPathClone_cons_cons]
        simp only [List.take_succ_cons, resAt]
        rw [fieldGet_withField_copy]
        obtain ⟨idv, hid, hge⟩ :=
          ihP (argPair obj first c).1 (argPair obj first c).2 (by simp) j hj
        refine ⟨idv, hid, ?_⟩
        have := argPair_counter_ge obj first c
        omega

/-- Sibling-preservation half of structural sharing: at every proper
prefix of the written path that addressed a container in the original,
every key other than the next path segment reads back the very same child
value (hence the same reference) as in the original. -/
theorem set_siblings (P : List String) (obj v : JVal) (c : Nat) (hne : P ≠ []) :
    ∀ i, (hi : i < P.length) → ∀ k : String, k ≠ P.get ⟨i, hi⟩ →
      isNode (resAt obj (P.take i)) = true →
      fieldGet (resAt (setDeepPathClone obj P v c).1 (P.take i)) k =
        fieldGet (resAt obj (P.take i)) k := by
  induction P generalizing obj c with
  | nil => exact absurd rfl hne
  | cons first R ihP =>
    cases R with
    | nil =>
      intro i hi k hk hnode
      have hi0 : i = 0 := by
        simp only [List.length_cons, List.length_nil] at hi
        omega
      subst hi0
      simp only [List.take_zero, resAt] at hnode ⊢
      obtain ⟨b, i0, fs, hobj⟩ := isNode_exists obj hnode
      have hk2 : k ≠ first := by simpa using hk
      rw [show setDeepPathClone obj [first] v c =
        (withField (copyObj obj c).1 first v, (copyObj obj c).2) from rfl]
      rw [fieldGet_withField_copy_ne obj v first k c (fun h => hk2 h.symm) b i0 fs hobj]
      rw [hobj]
      rfl
    | cons second rest =>
      intro i hi k hk hnode
      cases i with
      | zero =>
        simp only [List.take_zero, resAt] at hnode ⊢
        obtain ⟨b, i0, fs, hobj⟩ := isNode_exists obj hnode
        have hk2 : k ≠ first := by simpa using hk
        rw [setDeepPathClone_cons_cons]
        rw [fieldGet_withField_copy_ne obj _ first k c (fun h => hk2 h.symm) b i0 fs hobj]
        rw [hobj]
        rfl
      | succ j =>
        have hj : j < (second :: rest).length := by
          simpa [List.length_cons] using Nat.lt_of_succ_lt_succ hi
        have hk2 : k ≠ (second :: rest).get ⟨j, hj⟩ := by simpa using hk
        rw [setDeepPathClone_cons_cons]
        simp only [List.take_succ_cons, resAt] at hnode ⊢
        rw [fieldGet_withField_copy]
        by_cases hnest : isNode (fieldGet obj first) = true
        · obtain ⟨b, i0, fs, hnv⟩ := isNode_exists (fieldGet obj first) hnest
          rw [argPair_of_node obj first c b i0 fs hnv]
          have hcongr := fieldGet_resAt_congr fs b (c + 1) i0 (c + 1)
            ((second :: rest).take j)
          have hcongr2 := fieldGet_resAt_congr fs (c + 1) b (c + 1) i0
            ((second :: rest).take j)
          have hnode2 : isNode (resAt (JVal.node b (c + 1) fs) ((second :: rest).take j)) = true := by
            rw [(fieldGet_resAt_congr fs b b (c + 1) i0 ((second :: rest).take j)).2]
            rw [← hnv]
            exact hnode
          have := ihP (JVal.node b (c + 1) fs) (c + 2) (by simp) j hj k hk2 hnode2
          rw [this]
          rw [(fieldGet_resAt_congr fs b b (c + 1) i0 ((second :: rest).take j)).1 k]
          rw [← hnv]
        · have hfalse : isNode (resAt (fieldGet obj first) ((second :: rest).take j)) = false :=
            isNode_resAt_false _ _ (Bool.eq_false_iff.mpr hnest)
          rw [hnode] at hfalse
          exact absurd hfalse (by simp)

/-- **C6.** For every object state, every non-empty path `P`, every value
and every allocation counter `c` bounding the identities of the original:
the write returns a new root and a newly-allocated container at every
proper prefix of `P` (its identity is at least `c`, hence distinct from
every identity in the original), while at every such prefix that was a
container in the original, every sibling key off the path reads back the
identical child value — reference equality with the original.  In
particular, for `{a:{b:{c:1},d:2}}` written at `a.b.c`, the root, `a` and
`a.b` are new nodes while `a.d` and all sibling keys are untouched. -/
theorem set_structural_sharing (P : List String) (obj v : JVal) (c : Nat)
    (hne : P ≠ []) :
    (∀ i, i < P.length → ∃ idv,
      idAt (resAt (setDeepPathClone obj P v c).1 (P.take i)) = some idv ∧
      c ≤ idv ∧ ((∀ n ∈ allIds obj, n < c) → idv ∉ allIds obj))
    ∧ (∀ i, (hi : i < P.length) → ∀ k : String, k ≠ P.get ⟨i, hi⟩ →
        isNode (resAt obj (P.take i)) = true →
        fieldGet (resAt (setDeepPathClone obj P v c).1 (P.take i)) k =
          fieldGet (resAt obj (P.take i)) k) := by
  constructor
  · intro i hi
    obtain ⟨idv, hid, hge⟩ := set_fresh P obj v c hne i hi
    refine ⟨idv, hid, hge, fun hwf hmem => ?_⟩
    exact absurd (hwf idv hmem) (not_lt.mpr hge)
  · exact set_siblings P obj v c hne

/-- Concrete instance of C6: the spec's own example state and path. -/
theorem set_structural_sharing_witness :
    ((["a", "b", "c"] : List String) ≠ []) ∧
    ((∀ i, i < (["a", "b", "c"] : List String).length → ∃ idv,
      idAt (resAt (setDeepPathClone
        (JVal.node false 0 [("a", JVal.node false 1
          [("b", JVal.node false 2 [("c", JVal.num 1)]), ("d", JVal.num 2)])])
        ["a", "b", "c"] (JVal.num 2) 3).1
        ((["a", "b", "c"] : List String).take i)) = some idv ∧
      3 ≤ idv ∧ ((∀ n ∈ allIds (JVal.node false 0 [("a", JVal.node false 1
          [("b", JVal.node false 2 [("c", JVal.num 1)]), ("d", JVal.num 2)])]),
        n < 3) → idv ∉ allIds (JVal.node false 0 [("a", JVal.node false 1
          [("b", JVal.node false 2 [("c", JVal.num 1)]), ("d", JVal.num 2)])])))
    ∧ (∀ i, (hi : i < (["a", "b", "c"] : List String).length) → ∀ k : String,
        k ≠ (["a", "b", "c"] : List String).get ⟨i, hi⟩ →
        isNode (resAt (JVal.node false 0 [("a", JVal.node false 1
          [("b", JVal.node false 2 [("c", JVal.num 1)]), ("d", JVal.num 2)])])
          ((["a", "b", "c"] : List String).take i)) = true →
        fieldGet (resAt (setDeepPathClone
          (JVal.node false 0 [("a", JVal.node false 1
            [("b", JVal.node false 2 [("c", JVal.num 1)]), ("d", JVal.num 2)])])
          ["a", "b", "c"] (JVal.num 2) 3).1
          ((["a", "b", "c"] : List String).take i)) k =
          fieldGet (resAt (JVal.node false 0 [("a", JVal.node false 1
            [("b", JVal.node false 2 [("c", JVal.num 1)]), ("d", JVal.num 2)])])
            ((["a", "b", "c"] : List String).take i)) k)) :=
  ⟨by decide,
    set_structural_sharing ["a", "b", "c"]
      (JVal.node false 0 [("a", JVal.node false 1
        [("b", JVal.node false 2 [("c", JVal.num 1)]), ("d", JVal.num 2)])])
      (JVal.num 2) 3 (by decide)⟩

end UseWatcherMap
